import Mathlib

/-!
Shallow embedding of the camera module of ACME-Python (src/render/camera.py).

Machine floats are modelled by exact rationals.  The trigonometric,
square-root and coordinate-conversion collaborators (ACME.math.tan,
deg2rad, cart2sph, sph2cart, the row normaliser normr, ...) are declared
in ACME/math/__init__.py but their bodies are not part of the sources at
hand, so they enter the embedding as explicit oracle parameters, modelled
from the spec where their behaviour matters.
-/

abbrev V3 : Type := Fin 3 → ℚ

abbrev V4 : Type := Fin 4 → ℚ

abbrev M4 : Type := Matrix (Fin 4) (Fin 4) ℚ

/-- Modelled from the spec: cart2homo (ACME.math.cart2homo, body missing from
src/) appends the homogeneous component w = 1 to a cartesian point. -/
def cart2homo (P : V3) : V4 := ![P 0, P 1, P 2, 1]

/-- Modelled from the spec: homo2cart (ACME.math.homo2cart, body missing from
src/) divides by the homogeneous component to return to cartesian space. -/
def homo2cart (Q : V4) : V3 := ![Q 0 / Q 3, Q 1 / Q 3, Q 2 / Q 3]

/-- Modelled from the spec: dot product of two 3-vectors (external
linear-algebra collaborator). -/
def dot3 (a b : V3) : ℚ := a 0 * b 0 + a 1 * b 1 + a 2 * b 2

/-- Modelled from the spec: cross product of two 3-vectors (ACME.math.cross,
body missing from src/), with the standard right-handed orientation. -/
def cross (a b : V3) : V3 :=
  ![a 1 * b 2 - a 2 * b 1, a 2 * b 0 - a 0 * b 2, a 0 * b 1 - a 1 * b 0]

/-- Modelled from the spec: normr (ACME.math.normvec family, body missing
from src/) normalises a row vector to unit length.  The square root of the
squared norm is supplied by the oracle sq, so that exact rational reasoning
is possible whenever the norms occurring in a statement are perfect
squares. -/
def normr (sq : ℚ → ℚ) (v : V3) : V3 := fun i => v i / sq (dot3 v v)

/-- A concrete square-root oracle, exact on rationals whose numerator and
denominator are perfect squares; it instantiates the normalisation
collaborator in closed statements, all of whose norms are perfect
squares. -/
def sqrtQ (q : ℚ) : ℚ := (Nat.sqrt q.num.toNat : ℚ) / (Nat.sqrt q.den : ℚ)

/-- Camera extrinsic state: position, target and up vector
(src/render/camera.py, class CameraExtrinsic).  The device tag is erased:
it only selects the execution target of the tensors. -/
structure CameraExtrinsic where
  position : V3
  target : V3
  up_vector : V3

/-- CameraExtrinsic.direction returns target - position (camera.py line 113),
not normalised. -/
def CameraExtrinsic.direction (e : CameraExtrinsic) : V3 :=
  fun i => e.target i - e.position i

/-- CameraExtrinsic.view_matrix (camera.py lines 115-132).  The source
computes z = normr(direction), x = normr(cross(up_vector, z)), y = cross(z, x)
as 1x3 rows, then concatenates their transposes (3x1 columns) with -position
transposed along dim=1 and pads with the homogeneous row [0,0,0,1]: the
resulting matrix holds x, y, z and -position as its first, second, third and
fourth COLUMN. -/
def CameraExtrinsic.view_matrix (sq : ℚ → ℚ) (e : CameraExtrinsic) : M4 :=
  let z := normr sq e.direction
  let x := normr sq (cross e.up_vector z)
  let y := cross z x
  let p := e.position
  !![x 0, y 0, z 0, -p 0;
     x 1, y 1, z 1, -p 1;
     x 2, y 2, z 2, -p 2;
     0,   0,   0,   1]

/-- Camera intrinsic state (src/render/camera.py, class CameraIntrinsic);
the device tag is erased.  image_size stores (width, height). -/
structure CameraIntrinsic where
  fov : ℚ
  near : ℚ
  far : ℚ
  image_size : ℚ × ℚ
  projection : String

/-- CameraIntrinsic.aspect = width / height (camera.py line 230). -/
def CameraIntrinsic.aspect (i : CameraIntrinsic) : ℚ :=
  i.image_size.1 / i.image_size.2

/-- CameraIntrinsic.orthographic_matrix (camera.py lines 248-265).  The
source fills a zero 4x4 matrix at the five listed entries.  The composite
th d stands for tan(deg2rad(d) / 2): tan and deg2rad are external math
collaborators whose bodies are missing from src/, so they are supplied as
the oracle th. -/
def CameraIntrinsic.orthographic_matrix (th : ℚ → ℚ) (i : CameraIntrinsic) : M4 :=
  !![1 / (i.aspect * th i.fov), 0,            0,                        0;
     0,                         1 / th i.fov, 0,                        0;
     0,                         0,            2 / (i.far - i.near),     -(i.far + i.near) / (i.far - i.near);
     0,                         0,            0,                        1]

/-- CameraIntrinsic.perspective_matrix (camera.py lines 267-284): same
first two diagonal entries as the orthographic matrix, then
M[2,2] = (far+near)/(far-near), M[2,3] = -2*far*near/(far-near),
M[3,2] = 1, rest zero. -/
def CameraIntrinsic.perspective_matrix (th : ℚ → ℚ) (i : CameraIntrinsic) : M4 :=
  !![1 / (i.aspect * th i.fov), 0,            0,                                  0;
     0,                         1 / th i.fov, 0,                                  0;
     0,                         0,            (i.far + i.near) / (i.far - i.near), -2 * (i.far * i.near) / (i.far - i.near);
     0,                         0,            1,                                  0]

/-- CameraIntrinsic.projection_matrix (camera.py lines 232-246): dispatch on
the projection string; any unknown value raises ValueError, modelled as
none. -/
def CameraIntrinsic.projection_matrix (th : ℚ → ℚ) (i : CameraIntrinsic) : Option M4 :=
  if i.projection = "orthographic" then some (i.orthographic_matrix th)
  else if i.projection = "perspective" then some (i.perspective_matrix th)
  else none

/-- Camera (src/render/camera.py, class Camera): one extrinsic and one
intrinsic; name and device tag erased.  This value-semantics structure
serves the projection claims; the aliasing behaviour of the Python default
arguments is modelled separately below. -/
structure Camera where
  extrinsic : CameraExtrinsic
  intrinsic : CameraIntrinsic

/-- Per-axis pixel factor torch.tensor([w, h, 1]) with w = width - 1,
h = height - 1 (camera.py lines 372-377). -/
def Camera.pixel_scale (c : Camera) : V3 :=
  ![c.intrinsic.image_size.1 - 1, c.intrinsic.image_size.2 - 1, 1]

/-- Camera.project (camera.py lines 352-385).  s starts as the scalar 0.5
and is multiplied by [w-1, h-1, 1] only when pixels is true; the points are
taken to homogeneous coordinates, multiplied by the transpose of
projection_matrix * view_matrix (hence mulVec of that product on the
column), taken back to cartesian, and the result is returned as
homo2cart(...) * s + s.  projection_matrix raises on an unknown projection
string, hence the Option. -/
def Camera.project (sq th : ℚ → ℚ) (c : Camera) (pixels : Bool) (P : V3) : Option V3 :=
  match c.intrinsic.projection_matrix th with
  | none => none
  | some PM =>
    let s : V3 := fun i => if pixels then (1 / 2) * c.pixel_scale i else 1 / 2
    let UVd : V4 := (PM * c.extrinsic.view_matrix sq).mulVec (cart2homo P)
    some (fun i => homo2cart UVd i * s i + s i)

/-- Explicit inverse of a 4x4 rational matrix through the adjugate, standing
for torch.inverse; it agrees with the true inverse whenever the determinant
is nonzero. -/
def mat4inv (M : M4) : M4 := M.det⁻¹ • M.adjugate

/-- Camera.unproject (camera.py lines 387-418).  For pixels=true the source
evaluates P.device at line 409 where P is a local variable first assigned at
line 414; in Python a name assigned anywhere in a function body is local
throughout, so the call raises UnboundLocalError before any computation on
UVd, modelled as none.  For pixels=false, s stays the scalar 2 and the
source computes homo2cart(cart2homo(UVd*2 - 1) multiplied by the transposed
inverse of projection_matrix * view_matrix); torch.inverse raises on a
singular matrix, modelled as none on determinant zero. -/
def Camera.unproject (sq th : ℚ → ℚ) (c : Camera) (pixels : Bool) (UVd : V3) : Option V3 :=
  match c.intrinsic.projection_matrix th with
  | none => none
  | some PM =>
    if pixels then none
    else
      let M := PM * c.extrinsic.view_matrix sq
      if M.det = 0 then none
      else some (homo2cart ((mat4inv M).mulVec (cart2homo fun i => UVd i * 2 - 1)))

/-- Spec-side definition for the refinement claims: the normalized device
coordinates of P, i.e. exactly the homogeneous-to-cartesian conversion of P
transformed by projection_matrix * view_matrix, with no rescaling. -/
def ndcSpec (sq th : ℚ → ℚ) (c : Camera) (P : V3) : Option V3 :=
  (c.intrinsic.projection_matrix th).map
    (fun PM => homo2cart ((PM * c.extrinsic.view_matrix sq).mulVec (cart2homo P)))

/-- Spec-side definition for claim C2, following its words: the 4x4 matrix
whose top-left 3x3 block holds the basis vectors x, y, z as ROWS and whose
last column is [-dot(x,position), -dot(y,position), -dot(z,position), 1]. -/
def view_matrix_rows_spec (sq : ℚ → ℚ) (e : CameraExtrinsic) : M4 :=
  let z := normr sq e.direction
  let x := normr sq (cross e.up_vector z)
  let y := cross z x
  !![x 0, x 1, x 2, -(dot3 x e.position);
     y 0, y 1, y 2, -(dot3 y e.position);
     z 0, z 1, z 2, -(dot3 z e.position);
     0,   0,   0,   1]

/-- A concrete instantiation of the tangent collaborator, exact at the
only field of view the closed statements use: th 90 = tan(45 degrees) = 1. -/
def thQ : ℚ → ℚ := fun d => if d = 90 then 1 else 0

/-- The concrete camera used by the closed statements: default extrinsic
(position (0,0,0), target (0,0,1), up (0,1,0)) and a perspective intrinsic
with fov 90, near 1, far 3 and a 2x2 image. -/
def camC1 : Camera :=
  ⟨⟨![0, 0, 0], ![0, 0, 1], ![0, 1, 0]⟩, ⟨90, 1, 3, (2, 2), "perspective"⟩⟩

/-- A concrete instantiation of the square-root oracle for closed statements;
it agrees with the real square root on the only squared norm those
statements reach, namely 1. -/
def sqS : ℚ → ℚ := fun q => if q = 1 then 1 else 0

/-- Mutable CameraExtrinsic object state for the aliasing model: the three
pose vectors of one Python CameraExtrinsic instance. -/
structure ExtrinsicObj where
  position : V3
  target : V3
  up_vector : V3

/-- A Python Camera as far as extrinsic ownership is concerned: it stores a
reference (an index into the object heap) to its CameraExtrinsic. -/
structure PyCamera where
  extrinsic : ℕ

/-- The heap after the module loads: Python evaluates the default arguments
of Camera.__init__ (camera.py line 331, extrinsic=CameraExtrinsic()) once,
when the def statement executes, so a single default CameraExtrinsic object
exists, here at address 0, with the defaults position (0,0,0),
target (0,0,1), up_vector (0,1,0) of camera.py line 48. -/
def init_heap : List ExtrinsicObj := [⟨![0, 0, 0], ![0, 0, 1], ![0, 1, 0]⟩]

/-- Camera.__init__ with the extrinsic argument omitted (camera.py lines
330-350): the parameter is bound to the default object created at module
load, that is to address 0; no new CameraExtrinsic is allocated. -/
def camera_init_default : PyCamera := ⟨0⟩

/-- CameraExtrinsic.look_at (camera.py lines 67-83) through a reference:
self.target = target mutates the referenced object in the heap. -/
def heap_look_at (h : List ExtrinsicObj) (r : ℕ) (t : V3) : List ExtrinsicObj :=
  match h[r]? with
  | some o => h.set r { o with target := t }
  | none => h

/-- Reading camera.extrinsic.target through the heap. -/
def target_of (h : List ExtrinsicObj) (c : PyCamera) : Option V3 :=
  (h[c.extrinsic]?).map ExtrinsicObj.target

/-- Allocation of a fresh CameraExtrinsic by an explicit caller-side
CameraExtrinsic(...) call: the new object goes to the end of the heap and
its address is returned. -/
def alloc_extrinsic (h : List ExtrinsicObj) (o : ExtrinsicObj) :
    List ExtrinsicObj × ℕ :=
  (h ++ [o], h.length)

/-- Modelled from the spec: equilateral_polygon (ACME.geometry, body missing
from src/) returns the vertices of a planar regular n-gon of circumradius 1
in the XY plane, vertex k at the fraction k/n of a full turn; the oracles c
and s stand for the cosine and sine of a fraction of a turn. -/
def equilateral_polygon (c s : ℚ → ℚ) (n : ℕ) : List V3 :=
  (List.range n).map fun k : ℕ =>
    ![c ((k : ℚ) / (n : ℚ)), s ((k : ℚ) / (n : ℚ)), 0]

/-- camera_n (camera.py lines 650-675): positions are the equilateral
polygon scaled by camera_distance; the edge tensor is built from
indices(0, n-2) and indices(1, n-1) concatenated and transposed
(ACME.utility.indices and ACME.topology.poly2edge bodies are missing from
src/; modelled from the spec, whose literal rule connects vertices 0..N-2
to vertices 1..N-1), yielding the open chain (i, i+1) for i in 0..n-2. -/
def camera_n (c s : ℚ → ℚ) (n : ℕ) (camera_distance : ℚ) :
    List V3 × List (ℕ × ℕ) :=
  ((equilateral_polygon c s n).map fun p i => camera_distance * p i,
   (List.range (n - 1)).map fun i => (i, i + 1))

/-- bokeh_camera (camera.py lines 447-467).  Q is one zero row (from
torch.zeros_like of the (1,3) input) followed by the n polygon rows times
the aperture; the result is sph2cart(cart2sph(P) + Q[:, (2, 0, 1)]), where
the permutation reads column 2, 0, 1 of Q in that order.  cart2sph and
sph2cart (ACME.math, bodies missing from src/) are modelled from the spec
as the opaque coordinate conversions c2s and s2c. -/
def bokeh_camera (c2s s2c : V3 → V3) (c s : ℚ → ℚ) (P : V3) (n : ℕ)
    (aperture : ℚ) : List V3 :=
  let Q : List V3 :=
    (fun _ => 0) :: (equilateral_polygon c s n).map fun p i => aperture * p i
  Q.map fun q => s2c fun i => c2s P i + q (![2, 0, 1] i)

/-- Squared euclidean distance of two 3-vectors, used to state side and
diagonal lengths without a square root. -/
def dist3 (a b : V3) : ℚ := dot3 (fun i => a i - b i) (fun i => a i - b i)

/-- A concrete instantiation of the cosine-of-turns oracle, exact on the
quarter turns reached by the closed statements. -/
def cQ : ℚ → ℚ := fun t =>
  if t = 0 then 1 else if t = 1/4 then 0 else if t = 1/2 then -1 else 0

/-- A concrete instantiation of the sine-of-turns oracle, exact on the
quarter turns reached by the closed statements. -/
def sQ : ℚ → ℚ := fun t =>
  if t = 0 then 0 else if t = 1/4 then 1
  else if t = 1/2 then 0 else if t = 3/4 then -1 else 0

/-! Shared helper lemmas. -/

lemma mat4inv_mul {M : M4} (h : M.det ≠ 0) : mat4inv M * M = 1 := by
  rw [mat4inv, Matrix.smul_mul, Matrix.adjugate_mul, smul_smul,
    inv_mul_cancel₀ h, one_smul]

lemma cart2homo_homo2cart {v : V4} (hw : v 3 ≠ 0) :
    cart2homo (homo2cart v) = (v 3)⁻¹ • v := by
  funext i
  fin_cases i <;>
    simp [cart2homo, homo2cart, Pi.smul_apply, smul_eq_mul, div_eq_inv_mul,
      inv_mul_cancel₀ hw]

lemma homo2cart_smul_cart2homo {a : ℚ} (ha : a ≠ 0) (P : V3) :
    homo2cart (a • cart2homo P) = ![P 0, P 1, P 2] := by
  funext i
  fin_cases i <;>
    simp [cart2homo, homo2cart, Pi.smul_apply, smul_eq_mul,
      mul_div_cancel_left₀ _ ha]

lemma unproject_project_false (sq th : ℚ → ℚ) (c : Camera) (P Q : V3) (PM : M4)
    (hPM : c.intrinsic.projection_matrix th = some PM)
    (hdet : (PM * c.extrinsic.view_matrix sq).det ≠ 0)
    (hw : (PM * c.extrinsic.view_matrix sq).mulVec (cart2homo P) 3 ≠ 0)
    (hproj : c.project sq th false P = some Q) :
    c.unproject sq th false Q = some P := by
  set M := PM * c.extrinsic.view_matrix sq with hM
  set v := M.mulVec (cart2homo P) with hv
  rw [Camera.project, hPM] at hproj
  simp only [Bool.false_eq_true, if_false] at hproj
  rw [Option.some.injEq] at hproj
  rw [Camera.unproject, hPM]
  simp only [Bool.false_eq_true, if_false, ← hM, if_neg hdet, Option.some.injEq]
  have hQ : (fun i => Q i * 2 - 1) = homo2cart v := by
    funext i
    rw [← hproj]
    ring
  rw [hQ, cart2homo_homo2cart hw, Matrix.mulVec_smul, hv, Matrix.mulVec_mulVec,
    mat4inv_mul hdet, Matrix.one_mulVec,
    homo2cart_smul_cart2homo (inv_ne_zero hw)]
  funext i
  fin_cases i <;> simp

lemma camC1_PM : camC1.intrinsic.projection_matrix thQ =
    some !![1, 0, 0, 0; 0, 1, 0, 0; 0, 0, 2, -3; 0, 0, 1, 0] := by
  rw [CameraIntrinsic.projection_matrix, if_neg (by decide), if_pos (by decide)]
  refine congrArg some ?_
  ext i j
  fin_cases i <;> fin_cases j <;>
    norm_num [CameraIntrinsic.perspective_matrix, CameraIntrinsic.aspect,
      thQ, camC1]

lemma camC1_view : camC1.extrinsic.view_matrix sqS = 1 := by
  ext i j
  fin_cases i <;> fin_cases j <;>
    norm_num [CameraExtrinsic.view_matrix, normr, cross, dot3, sqS,
      CameraExtrinsic.direction, camC1, Matrix.one_apply, Fin.ext_iff]

lemma camC1_det :
    ((!![1, 0, 0, 0; 0, 1, 0, 0; 0, 0, 2, -3; 0, 0, 1, 0] : M4) *
      camC1.extrinsic.view_matrix sqS).det ≠ 0 := by
  rw [camC1_view, mul_one]
  norm_num [Matrix.det_succ_row_zero, Fin.sum_univ_succ, Matrix.submatrix_apply]

lemma camC1_project_false :
    camC1.project sqS thQ false ![0, 0, 2] = some ![1/2, 1/2, 3/4] := by
  rw [Camera.project, camC1_PM]
  simp only [Bool.false_eq_true, if_false, camC1_view, mul_one, Option.some.injEq]
  funext i
  fin_cases i <;>
    norm_num [Matrix.mulVec, Matrix.dotProduct, Fin.sum_univ_succ, cart2homo,
      homo2cart, Camera.pixel_scale, camC1]

lemma camC1_ndc :
    ndcSpec sqS thQ camC1 ![0, 0, 2] = some ![0, 0, 1/2] := by
  rw [ndcSpec, camC1_PM, Option.map_some', camC1_view, mul_one]
  refine congrArg some ?_
  funext i
  fin_cases i <;>
    norm_num [Matrix.mulVec, Matrix.dotProduct, Fin.sum_univ_succ, cart2homo,
      homo2cart]

/-! Claim theorems. -/

/-- C1: the round trip unproject(project(P, pixels=b), pixels=b) = P is the
spec intent, but at the concrete valid camera (fov 90, near 1, far 3, image
2x2, default pose) the code completes the round trip only for b = false; for
b = true every unproject call fails (UnboundLocalError on P.device at
camera.py line 409), so the b = true round trip never returns. -/
theorem roundtrip_code_bug :
    (∀ Q : V3, camC1.unproject sqS thQ true Q = none)
    ∧ camC1.project sqS thQ false ![0, 0, 2] = some ![1/2, 1/2, 3/4]
    ∧ camC1.unproject sqS thQ false ![1/2, 1/2, 3/4] = some ![0, 0, 2] := by
  refine ⟨fun Q => ?_, camC1_project_false, ?_⟩
  · rw [Camera.unproject, camC1_PM]
    simp
  · refine unproject_project_false sqS thQ camC1 ![0, 0, 2] ![1/2, 1/2, 3/4] _
      camC1_PM camC1_det ?_ camC1_project_false
    rw [camC1_view, mul_one]
    norm_num [Matrix.mulVec, Matrix.dotProduct, Fin.sum_univ_succ, cart2homo]

/-- C2, counterexample: for position (0,0,0), target (1,0,0), up (0,1,0) the
view matrix of the code is not the matrix of the claim (basis as rows with
dotted translation column): the code stores the basis as columns, and the
two matrices differ at entry (0,2), where the code has z 0 = 1 and the claim
has x 2 = -1. -/
theorem view_matrix_not_rows_spec :
    CameraExtrinsic.view_matrix sqS ⟨![0, 0, 0], ![1, 0, 0], ![0, 1, 0]⟩ ≠
      view_matrix_rows_spec sqS ⟨![0, 0, 0], ![1, 0, 0], ![0, 1, 0]⟩ := by
  intro h
  have h02 := congrFun (congrFun h 0) 2
  norm_num [CameraExtrinsic.view_matrix, view_matrix_rows_spec, normr, cross,
    dot3, sqS, CameraExtrinsic.direction, Fin.ext_iff] at h02

/-- C2, amended: view_matrix stores the right-handed basis x, y, z and
-position as COLUMNS (its transpose has them as rows over the homogeneous
row), the translation column being the unrotated -position; for the default
pose (position (0,0,0), target (0,0,1), up (0,1,0)) the result is the
identity matrix whenever the square-root oracle is exact at 1. -/
theorem view_matrix_columns (sq : ℚ → ℚ) (e : CameraExtrinsic) :
    (e.view_matrix sq).transpose =
      !![normr sq (cross e.up_vector (normr sq e.direction)) 0,
         normr sq (cross e.up_vector (normr sq e.direction)) 1,
         normr sq (cross e.up_vector (normr sq e.direction)) 2, 0;
         cross (normr sq e.direction)
           (normr sq (cross e.up_vector (normr sq e.direction))) 0,
         cross (normr sq e.direction)
           (normr sq (cross e.up_vector (normr sq e.direction))) 1,
         cross (normr sq e.direction)
           (normr sq (cross e.up_vector (normr sq e.direction))) 2, 0;
         normr sq e.direction 0, normr sq e.direction 1,
         normr sq e.direction 2, 0;
         -e.position 0, -e.position 1, -e.position 2, 1]
    ∧ (sq 1 = 1 →
        CameraExtrinsic.view_matrix sq ⟨![0, 0, 0], ![0, 0, 1], ![0, 1, 0]⟩ = 1) := by
  constructor
  · ext i j
    fin_cases i <;> fin_cases j <;>
      simp [CameraExtrinsic.view_matrix, Matrix.transpose_apply]
  · intro hs
    ext i j
    fin_cases i <;> fin_cases j <;>
      norm_num [CameraExtrinsic.view_matrix, normr, cross, dot3,
        CameraExtrinsic.direction, Matrix.one_apply, Fin.ext_iff, hs]

/-- C2, witness: the amended theorem applied to the exact-at-1 oracle sqS
and the default pose yields the identity view matrix. -/
theorem view_matrix_columns_witness :
    sqS 1 = 1 ∧
      CameraExtrinsic.view_matrix sqS ⟨![0, 0, 0], ![0, 0, 1], ![0, 1, 0]⟩ = 1 :=
  ⟨by norm_num [sqS],
   (view_matrix_columns sqS ⟨![0, 0, 0], ![0, 0, 1], ![0, 1, 0]⟩).2
     (by norm_num [sqS])⟩

/-- C3, counterexample: with pixels=false the code does NOT return the raw
normalized device coordinates: at the concrete camera (fov 90, near 1,
far 3, image 2x2, default pose) and P = (0,0,2) the code returns
(1/2, 1/2, 3/4) while the NDC are (0, 0, 1/2). -/
theorem project_false_not_ndc :
    camC1.project sqS thQ false ![0, 0, 2] ≠ ndcSpec sqS thQ camC1 ![0, 0, 2] := by
  rw [camC1_project_false, camC1_ndc]
  intro h
  have h2 := congrFun (Option.some.inj h) 2
  norm_num at h2

/-- C3, amended: project applies the rescale u' = u*s + s for BOTH settings
of pixels, with s = 0.5 when pixels=false (mapping NDC from [-1,1] to
[0,1] in all three coordinates) and s = 0.5*[width-1, height-1, 1] when
pixels=true; equivalently, whenever the NDC of P exist the output is
(NDC + 1)/2 componentwise, times the per-axis pixel factor when pixels is
true. -/
theorem project_scaling (sq th : ℚ → ℚ) (c : Camera) (b : Bool) (P Q : V3)
    (h : ndcSpec sq th c P = some Q) :
    c.project sq th b P =
      some (fun i => (Q i + 1) / 2 * (if b then c.pixel_scale i else 1)) := by
  rw [ndcSpec] at h
  cases hPM : c.intrinsic.projection_matrix th with
  | none => rw [hPM] at h; exact absurd h (by simp)
  | some PM =>
    rw [hPM, Option.map_some', Option.some.injEq] at h
    rw [Camera.project, hPM, Option.some.injEq]
    funext i
    rw [← h]
    cases b <;> simp <;> ring

/-- C3, witness: the amended theorem at the concrete camera, P = (0,0,2)
and pixels=true. -/
theorem project_scaling_witness :
    ndcSpec sqS thQ camC1 ![0, 0, 2] = some ![0, 0, 1/2] ∧
      camC1.project sqS thQ true ![0, 0, 2] =
        some (fun i => ((![0, 0, 1/2] : V3) i + 1) / 2 *
          (if true then camC1.pixel_scale i else 1)) :=
  ⟨camC1_ndc, project_scaling sqS thQ camC1 true ![0, 0, 2] ![0, 0, 1/2] camC1_ndc⟩

/-- C4: unproject with pixels=true fails for every input before any
computation on UVd (camera.py line 409 reads the local P, which is only
assigned at line 414, raising UnboundLocalError), while the pixels=false
path still returns a result whenever the projection kind is known and the
combined matrix is invertible. -/
theorem unproject_pixels_true_none (sq th : ℚ → ℚ) (c : Camera) (UVd : V3) :
    c.unproject sq th true UVd = none
    ∧ (∀ PM, c.intrinsic.projection_matrix th = some PM →
        (PM * c.extrinsic.view_matrix sq).det ≠ 0 →
        ∃ r, c.unproject sq th false UVd = some r) := by
  constructor
  · rw [Camera.unproject]
    cases h : c.intrinsic.projection_matrix th <;> simp
  · intro PM hPM hdet
    rw [Camera.unproject, hPM]
    simp only [Bool.false_eq_true, if_false, if_neg hdet]
    exact ⟨_, rfl⟩

/-- C4, witness: at the concrete camera and UVd = (0,0,0), unproject with
pixels=true returns nothing and unproject with pixels=false returns a
point. -/
theorem unproject_pixels_true_none_witness :
    camC1.unproject sqS thQ true ![0, 0, 0] = none
    ∧ ∃ r, camC1.unproject sqS thQ false ![0, 0, 0] = some r :=
  ⟨(unproject_pixels_true_none sqS thQ camC1 ![0, 0, 0]).1,
   (unproject_pixels_true_none sqS thQ camC1 ![0, 0, 0]).2
     !![1, 0, 0, 0; 0, 1, 0, 0; 0, 0, 2, -3; 0, 0, 1, 0] camC1_PM camC1_det⟩


/-- C5: the orthographic matrix has M[0,0] = 1/(aspect * tan(fov/2)),
M[1,1] = 1/tan(fov/2), M[2,2] = 2/(far-near), M[2,3] = -(far+near)/(far-near),
M[3,3] = 1 and every other entry zero; for fov 90 (tan 45 degrees = 1),
near 1, far 3 and a 2x2 image it is the concrete matrix with
M[0,0] = M[1,1] = M[2,2] = M[3,3] = 1 and M[2,3] = -2. -/
theorem orthographic_matrix_entries (th : ℚ → ℚ) (i : CameraIntrinsic) :
    i.orthographic_matrix th 0 0 = 1 / (i.aspect * th i.fov)
    ∧ i.orthographic_matrix th 1 1 = 1 / th i.fov
    ∧ i.orthographic_matrix th 2 2 = 2 / (i.far - i.near)
    ∧ i.orthographic_matrix th 2 3 = -(i.far + i.near) / (i.far - i.near)
    ∧ i.orthographic_matrix th 3 3 = 1
    ∧ (∀ r c : Fin 4,
        (r, c) ∉ ([(0, 0), (1, 1), (2, 2), (2, 3), (3, 3)] : List (Fin 4 × Fin 4)) →
        i.orthographic_matrix th r c = 0)
    ∧ (th 90 = 1 →
        CameraIntrinsic.orthographic_matrix th ⟨90, 1, 3, (2, 2), "orthographic"⟩ =
          !![1, 0, 0, 0; 0, 1, 0, 0; 0, 0, 1, -2; 0, 0, 0, 1]) := by
  refine ⟨rfl, rfl, rfl, rfl, rfl, ?_, ?_⟩
  · intro r c hrc
    fin_cases r <;> fin_cases c <;> first | rfl | exact absurd (by decide) hrc
  · intro hth
    ext r c
    fin_cases r <;> fin_cases c <;>
      norm_num [CameraIntrinsic.orthographic_matrix, CameraIntrinsic.aspect, hth]

/-- C5, witness: the orthographic entry theorem at the tangent oracle that
is exact at 90 degrees. -/
theorem orthographic_matrix_entries_witness :
    thQ 90 = 1 ∧
      CameraIntrinsic.orthographic_matrix thQ ⟨90, 1, 3, (2, 2), "orthographic"⟩ =
        !![1, 0, 0, 0; 0, 1, 0, 0; 0, 0, 1, -2; 0, 0, 0, 1] :=
  ⟨by norm_num [thQ],
   (orthographic_matrix_entries thQ ⟨90, 1, 3, (2, 2), "orthographic"⟩).2.2.2.2.2.2
     (by norm_num [thQ])⟩

/-- C6: the perspective matrix shares M[0,0] and M[1,1] with the
orthographic one, has M[2,2] = (far+near)/(far-near),
M[2,3] = -2*far*near/(far-near), M[3,2] = 1 and every other entry zero; for
fov 90, near 1, far 3 and a 2x2 image it has M[3,2] = 1, M[2,2] = 2 and
M[2,3] = -3. -/
theorem perspective_matrix_entries (th : ℚ → ℚ) (i : CameraIntrinsic) :
    i.perspective_matrix th 0 0 = i.orthographic_matrix th 0 0
    ∧ i.perspective_matrix th 1 1 = i.orthographic_matrix th 1 1
    ∧ i.perspective_matrix th 2 2 = (i.far + i.near) / (i.far - i.near)
    ∧ i.perspective_matrix th 2 3 = -2 * (i.far * i.near) / (i.far - i.near)
    ∧ i.perspective_matrix th 3 2 = 1
    ∧ (∀ r c : Fin 4,
        (r, c) ∉ ([(0, 0), (1, 1), (2, 2), (2, 3), (3, 2)] : List (Fin 4 × Fin 4)) →
        i.perspective_matrix th r c = 0)
    ∧ (th 90 = 1 →
        CameraIntrinsic.perspective_matrix th ⟨90, 1, 3, (2, 2), "perspective"⟩ =
          !![1, 0, 0, 0; 0, 1, 0, 0; 0, 0, 2, -3; 0, 0, 1, 0]) := by
  have h1 : i.perspective_matrix th 0 0 = 1 / (i.aspect * th i.fov) := rfl
  have h2 : i.orthographic_matrix th 0 0 = 1 / (i.aspect * th i.fov) := rfl
  have h3 : i.perspective_matrix th 1 1 = 1 / th i.fov := rfl
  have h4 : i.orthographic_matrix th 1 1 = 1 / th i.fov := rfl
  refine ⟨by rw [h1, h2], by rw [h3, h4], rfl, rfl, rfl, ?_, ?_⟩
  · intro r c hrc
    fin_cases r <;> fin_cases c <;> first | rfl | exact absurd (by decide) hrc
  · intro hth
    ext r c
    fin_cases r <;> fin_cases c <;>
      norm_num [CameraIntrinsic.perspective_matrix, CameraIntrinsic.aspect, hth]

/-- C6, witness: the perspective entry theorem at the tangent oracle that is
exact at 90 degrees. -/
theorem perspective_matrix_entries_witness :
    thQ 90 = 1 ∧
      CameraIntrinsic.perspective_matrix thQ ⟨90, 1, 3, (2, 2), "perspective"⟩ =
        !![1, 0, 0, 0; 0, 1, 0, 0; 0, 0, 2, -3; 0, 0, 1, 0] :=
  ⟨by norm_num [thQ],
   (perspective_matrix_entries thQ ⟨90, 1, 3, (2, 2), "perspective"⟩).2.2.2.2.2.2
     (by norm_num [thQ])⟩

/-- C7: projection_matrix returns the orthographic matrix when the
projection field is "orthographic", the perspective matrix when it is
"perspective", and fails (ValueError, modelled as none) exactly when the
field holds any other value; the source method only reads the intrinsic, so
no intrinsic state changes. -/
theorem projection_matrix_dispatch (th : ℚ → ℚ) (i : CameraIntrinsic) :
    (i.projection = "orthographic" →
      i.projection_matrix th = some (i.orthographic_matrix th))
    ∧ (i.projection = "perspective" →
      i.projection_matrix th = some (i.perspective_matrix th))
    ∧ (i.projection_matrix th = none ↔
        i.projection ≠ "orthographic" ∧ i.projection ≠ "perspective") := by
  rw [CameraIntrinsic.projection_matrix]
  refine ⟨fun h => by rw [if_pos h], fun h => ?_, ?_⟩
  · rw [if_neg (by rw [h]; intro hc; exact absurd hc (by decide)), if_pos h]
  · constructor
    · intro h
      by_contra hc
      rw [not_and_or, not_not, not_not] at hc
      rcases hc with hc | hc <;> rw [hc] at h <;> simp at h
    · intro hc
      rw [if_neg hc.1, if_neg hc.2]

/-- C7, witness: the dispatch theorem at three concrete intrinsics, one per
branch: an orthographic one, a perspective one, and one with the unknown
projection kind banana. -/
theorem projection_matrix_dispatch_witness :
    CameraIntrinsic.projection_matrix thQ ⟨90, 1, 3, (2, 2), "orthographic"⟩ =
      some (CameraIntrinsic.orthographic_matrix thQ ⟨90, 1, 3, (2, 2), "orthographic"⟩)
    ∧ CameraIntrinsic.projection_matrix thQ ⟨90, 1, 3, (2, 2), "perspective"⟩ =
      some (CameraIntrinsic.perspective_matrix thQ ⟨90, 1, 3, (2, 2), "perspective"⟩)
    ∧ CameraIntrinsic.projection_matrix thQ ⟨90, 1, 3, (2, 2), "banana"⟩ = none :=
  ⟨(projection_matrix_dispatch thQ ⟨90, 1, 3, (2, 2), "orthographic"⟩).1 rfl,
   (projection_matrix_dispatch thQ ⟨90, 1, 3, (2, 2), "perspective"⟩).2.1 rfl,
   (projection_matrix_dispatch thQ ⟨90, 1, 3, (2, 2), "banana"⟩).2.2.2
     ⟨by decide, by decide⟩⟩

/-- C8, counterexample: two Cameras constructed with the default arguments
do not own distinct extrinsics.  Python evaluates the default
extrinsic=CameraExtrinsic() once, at class-body execution, so both cameras
reference the same object: after the first camera's extrinsic target is set
to (5,5,5) through look_at, the second camera's extrinsic target is no
longer its original (0,0,1), contradicting the claim that it is left
unchanged. -/
theorem default_cameras_not_distinct :
    target_of (heap_look_at init_heap camera_init_default.extrinsic ![5, 5, 5])
      camera_init_default ≠ some ![0, 0, 1] := by
  intro h
  simp only [target_of, heap_look_at, init_heap, camera_init_default,
    List.getElem?_cons_zero, List.set_cons_zero, Option.map_some',
    Option.some.injEq] at h
  have h0 := congrFun h 0
  norm_num at h0

/-- C8, amended: default-constructed Cameras share one CameraExtrinsic
object (Python default arguments are evaluated once), so a look_at through
the first camera is visible through the second; two cameras whose
extrinsics the caller allocates explicitly are independent: mutating the
first leaves the second's target unchanged. -/
theorem default_cameras_share_extrinsic (t : V3) (e1 e2 : ExtrinsicObj) :
    camera_init_default.extrinsic = camera_init_default.extrinsic
    ∧ target_of (heap_look_at init_heap camera_init_default.extrinsic t)
        camera_init_default = some t
    ∧ target_of
        (heap_look_at (alloc_extrinsic (alloc_extrinsic init_heap e1).1 e2).1
          (PyCamera.mk (alloc_extrinsic init_heap e1).2).extrinsic t)
        (PyCamera.mk (alloc_extrinsic (alloc_extrinsic init_heap e1).1 e2).2) =
      some e2.target := by
  refine ⟨rfl, ?_, ?_⟩
  · simp [target_of, heap_look_at, init_heap, camera_init_default]
  · simp [target_of, heap_look_at, alloc_extrinsic, init_heap]

/-- C9: camera_n with n = 4 and camera_distance 1 yields exactly four
positions forming a planar square of circumradius 1 (sides of squared
length 2, diagonals of squared length 4, all z = 0, all at squared
distance 1 from the origin) and exactly the three open-chain edges (0,1),
(1,2), (2,3); for every n the edge list has n-1 edges and never contains
the closing edge (n-1, 0). -/
theorem camera_n_square_open_chain (c s : ℚ → ℚ) (n : ℕ) (d : ℚ)
    (hc0 : c 0 = 1) (hs0 : s 0 = 0)
    (hc1 : c (1/4) = 0) (hs1 : s (1/4) = 1)
    (hc2 : c (1/2) = -1) (hs2 : s (1/2) = 0)
    (hc3 : c (3/4) = 0) (hs3 : s (3/4) = -1) :
    (∃ q0 q1 q2 q3 : V3,
      (camera_n c s 4 1).1 = [q0, q1, q2, q3]
      ∧ (∀ q ∈ [q0, q1, q2, q3], q 2 = 0 ∧ q 0 ^ 2 + q 1 ^ 2 = 1)
      ∧ dist3 q0 q1 = 2 ∧ dist3 q1 q2 = 2 ∧ dist3 q2 q3 = 2 ∧ dist3 q3 q0 = 2
      ∧ dist3 q0 q2 = 4 ∧ dist3 q1 q3 = 4)
    ∧ (camera_n c s 4 1).2 = [(0, 1), (1, 2), (2, 3)]
    ∧ ((camera_n c s n d).2).length = n - 1
    ∧ (n - 1, 0) ∉ (camera_n c s n d).2 := by
  refine ⟨⟨![1, 0, 0], ![0, 1, 0], ![-1, 0, 0], ![0, -1, 0], ?_, ?_, ?_⟩, ?_, ?_, ?_⟩
  · show List.map (fun p i => (1 : ℚ) * p i) (equilateral_polygon c s 4) =
      [![1, 0, 0], ![0, 1, 0], ![-1, 0, 0], ![0, -1, 0]]
    rw [equilateral_polygon, show List.range 4 = [0, 1, 2, 3] from rfl]
    simp only [List.map_cons, List.map_nil, List.cons.injEq, and_true]
    refine ⟨?_, ?_, ?_, ?_⟩ <;> funext i <;> fin_cases i <;>
      norm_num [hc0, hs0, hc1, hs1, hc2, hs2, hc3, hs3]
  · intro q hq
    simp only [List.mem_cons, List.not_mem_nil, or_false] at hq
    rcases hq with rfl | rfl | rfl | rfl <;> norm_num
  · refine ⟨?_, ?_, ?_, ?_, ?_, ?_⟩ <;> norm_num [dist3, dot3]
  · rfl
  · simp [camera_n]
  · intro h
    simp only [camera_n, List.mem_map, List.mem_range, Prod.mk.injEq] at h
    obtain ⟨i, _, _, hi⟩ := h
    omega

/-- C9, witness: the camera_n theorem applied at the quarter-turn-exact
oracles cQ and sQ, n = 4, distance 1, each trigonometric hypothesis
discharged by evaluation. -/
theorem camera_n_square_open_chain_witness :
    (camera_n cQ sQ 4 1).2 = [(0, 1), (1, 2), (2, 3)] :=
  (camera_n_square_open_chain cQ sQ 4 1
    (by norm_num [cQ]) (by norm_num [sQ]) (by norm_num [cQ]) (by norm_num [sQ])
    (by norm_num [cQ]) (by norm_num [sQ]) (by norm_num [cQ])
    (by norm_num [sQ])).2.1

/-- C10: bokeh_camera returns n+1 rows; the first row is exactly the
zero-offset image of P, namely the spherical-to-cartesian round trip
sph2cart(cart2sph(P)) with nothing added, and the remaining n rows are the
perturbed copies obtained from the aperture-scaled polygon offsets under
the (2,0,1) column permutation. -/
theorem bokeh_camera_rows (c2s s2c : V3 → V3) (c s : ℚ → ℚ) (P : V3) (n : ℕ)
    (aperture : ℚ) :
    bokeh_camera c2s s2c c s P n aperture =
      s2c (c2s P) ::
        (equilateral_polygon c s n).map
          (fun p => s2c fun i => c2s P i + aperture * p (![2, 0, 1] i))
    ∧ (bokeh_camera c2s s2c c s P n aperture).length = n + 1
    ∧ (bokeh_camera c2s s2c c s P n aperture).head? = some (s2c (c2s P)) := by
  have h : bokeh_camera c2s s2c c s P n aperture =
      s2c (c2s P) ::
        (equilateral_polygon c s n).map
          (fun p => s2c fun i => c2s P i + aperture * p (![2, 0, 1] i)) := by
    rw [bokeh_camera]
    simp only [List.map_cons, List.map_map, Function.comp, add_zero]
    rfl
  refine ⟨h, ?_, ?_⟩
  · rw [h]
    simp only [List.length_cons, List.length_map, equilateral_polygon,
      List.length_range]
  · rw [h]
    rfl
